import Mathlib

/-!
Shallow embedding of the random-forest package (`src/unnamed/part_003`, Go,
package `randomForest`) and verification of the frozen claims about it.

Modelling conventions:
* Go `float64` values (features, labels, thresholds, scores) are embedded as `ℚ`.
  The only float-special values the code can produce are `NaN` (from `0.0/0.0`
  divisions, `math.NaN()` and MSE of an empty slice) and `±Inf` (the initial
  best-score sentinels).  Where a `NaN` result is observable we model the result
  type as `Option ℚ` with `none` for `NaN`; the `-Inf` best-score sentinel is
  modelled as `⊥ : WithBot ℚ`.
* Go runtime panics (out-of-range slice index, nil-pointer dereference,
  `make` with a negative length, `rand.Intn(0)`) are modelled as `none` of an
  `Option` result.  The code defines no error types at all, so `none` is the
  only failure the embedding can produce.
* The package uses the shared global generator of `math/rand`.  We model the
  stream of raw draws it produces as an explicit `List Nat` threaded through
  every function that consumes randomness; `rand.Intn n` consumes one raw draw
  and reduces it modulo `n`.  An exhausted finite stream continues with zeros
  (any terminating run only inspects a finite prefix, so a finite stream
  suffices).  Crucially, the stream advances across successive calls, exactly
  like the global generator in Go.
* Go map iteration order is randomized at runtime.  The two `majorityVote`
  functions and `giniImpurity` iterate over a `map[float64]int` of counts; the
  embedding fixes the canonical deterministic order of first insertion
  (first occurrence in the scanned slice).  `giniImpurity` is a commutative sum,
  so its value does not depend on this choice; for `majorityVote` the choice is
  observable in tie cases and is documented where used.
* `buildTree` recurses with `depth-1`; for a negative starting depth the Go
  code can never satisfy its `depth == 0` stop and recurses unboundedly
  whenever a partition stays impure.  The embedding therefore takes the depth
  as a `Nat` (faithful for every run with `maxDepth ≥ 0`, the only regime the
  claims exercise) and `TrainDecisionTree` maps a negative `MaxDepth` to
  `none`.
-/

/- The rational arithmetic of the standard library is sealed against
unfolding; re-opening it lets concrete runs of the embedding be checked by
kernel evaluation. -/
attribute [local semireducible] Rat.add Rat.mul Rat.inv Rat.sub Rat.ofScientific

/-- The stream of raw draws of the shared global `math/rand` generator. -/
abbrev RNG := List Nat

/-- `rand.Intn n`: panics (`none`) for `n = 0` (Go panics for `n <= 0`),
otherwise consumes one raw draw of the stream and reduces it modulo `n`.
An exhausted stream keeps producing `0`. -/
def randIntn (n : Nat) (g : RNG) : Option (Nat × RNG) :=
  if n = 0 then none
  else
    match g with
    | [] => some (0, [])
    | v :: g1 => some (v % n, g1)

/-- A `*Node` pointer of the Go code: either `nil` or a `Node` value with the
fields `FeatureIndex`, `Threshold`, `Prediction`, `Left`, `Right`.  Leaf nodes
are, as in the source, exactly the nodes whose two child pointers are `nil`;
the numeric fields not set by a composite literal default to `0`. -/
inductive NodePtr where
  | null : NodePtr
  | node (featureIndex : Nat) (threshold : ℚ) (prediction : ℚ)
      (left : NodePtr) (right : NodePtr) : NodePtr
deriving DecidableEq, Repr

/-- `DecisionTree` struct of the source. -/
structure DecisionTree where
  root : NodePtr
  maxDepth : Int
  maxFeatures : Int
  task : String
deriving DecidableEq, Repr

/-- `RandomForest` struct of the source; `Trees` is a slice of possibly-nil
tree pointers. -/
structure RandomForest where
  trees : List (Option DecisionTree)
  numTrees : Int
  maxDepth : Int
  maxFeatures : Int
  task : String
deriving DecidableEq, Repr

/-- Feature matrix: a slice of float64 rows. -/
abbrev FMatrix := List (List ℚ)

/-- `NewRandomForest`: `make([]*DecisionTree, numTrees)` panics for a negative
length, otherwise the slice holds `numTrees` nil pointers. -/
def NewRandomForest (numTrees maxDepth maxFeatures : Int) (task : String) :
    Option RandomForest :=
  if numTrees < 0 then none
  else some ⟨List.replicate numTrees.toNat none, numTrees, maxDepth, maxFeatures, task⟩

/-- `NewDecisionTree`: root starts out nil. -/
def NewDecisionTree (maxDepth maxFeatures : Int) (task : String) : DecisionTree :=
  ⟨NodePtr.null, maxDepth, maxFeatures, task⟩

/-- The distinct values of a list in order of first occurrence: the canonical
iteration order fixed for the count maps of the source (see the header). -/
def firstOccurrences : List ℚ → List ℚ
  | [] => []
  | a :: l => a :: (firstOccurrences l).filter (fun c => c ≠ a)

/-- `majorityVote` (both the `DecisionTree` and the `RandomForest` method have
this same body): builds a count map and scans it keeping the first entry with
a strictly larger count; `majorityPrediction` and `maxCount` start at the zero
values `0.0` and `0`.  The map is scanned in the canonical first-occurrence
order. -/
def majorityVote (predictions : List ℚ) : ℚ :=
  ((firstOccurrences predictions).foldl
    (fun acc c =>
      if predictions.count c > acc.2 then (c, predictions.count c) else acc)
    ((0 : ℚ), (0 : Nat))).1

/-- `mean` (both methods): `sum / float64(len(y))`.  For an empty slice Go
produces `0.0/0.0 = NaN`; in `ℚ` division by zero gives `0`.  Every use of
`mean` in the theorems below is guarded by non-emptiness or wrapped in an
`Option` at the call site that can observe the `NaN`. -/
def mean (y : List ℚ) : ℚ := y.sum / (y.length : ℚ)

/-- `getLeafPrediction`: majority label for the classification task, mean for
every other task string. -/
def getLeafPrediction (task : String) (y : List ℚ) : ℚ :=
  if task = "classification" then majorityVote y else mean y

/-- `giniImpurity`: sum of `p * (1 - p)` over the distinct labels of `y`
(the count map), with `p = count / len(y)`.  For empty `y` the map is empty
and the function returns `0` without dividing. -/
def giniImpurity (y : List ℚ) : ℚ :=
  ((firstOccurrences y).map
    (fun c =>
      ((y.count c : ℚ) / (y.length : ℚ)) * (1 - (y.count c : ℚ) / (y.length : ℚ)))).sum

/-- `meanSquaredError`: `none` models the `NaN` Go produces for an empty slice
(`mean` is `0/0` and the final division is `0/0`). -/
def meanSquaredError (y : List ℚ) : Option ℚ :=
  match y with
  | [] => none
  | _ :: _ => some (((y.map (fun v => (v - mean y) * (v - mean y))).sum) / (y.length : ℚ))

/-- `calculateScore`: negated size-weighted impurity.  `none` models the `NaN`
results: an unknown task string (`math.NaN()`), the `0/0` weights when both
sides are empty, and the `NaN` mean-squared error of an empty regression
side (`0 * NaN = NaN` propagates through the weighting). -/
def calculateScore (task : String) (leftY rightY : List ℚ) : Option ℚ :=
  let leftSize : ℚ := leftY.length
  let rightSize : ℚ := rightY.length
  let totalSize : ℚ := leftSize + rightSize
  if task = "classification" then
    if totalSize = 0 then none
    else
      some (-((leftSize / totalSize) * giniImpurity leftY +
              (rightSize / totalSize) * giniImpurity rightY))
  else if task = "regression" then
    match meanSquaredError leftY, meanSquaredError rightY with
    | some lm, some rm =>
      some (-((leftSize / totalSize) * lm + (rightSize / totalSize) * rm))
    | _, _ => none
  else none

/-- `isSameClass`: all labels equal to `y[0]` (the loop starts at index 1, so
an empty or singleton slice yields `true`). -/
def isSameClass (y : List ℚ) : Bool :=
  match y with
  | [] => true
  | a :: rest => rest.all (fun v => v == a)

/-- Inner loop of `isSameValue` for one row `r`: compares `r[j]` with `x0[j]`
for `j` from `1` to `len(r) - 1` (note: index `0` is never compared).  The two
argument lists are the suffixes of `X[0]` and `X[i]` from index 1.  Reading
`X[0][j]` for `j ≥ len(X[0])` is an out-of-range panic (`none`); a mismatch
found earlier returns before that read. -/
def rowPairCheck : List ℚ → List ℚ → Option Bool
  | _, [] => some true
  | [], _ :: _ => none
  | v0 :: x0s, v :: rs => if v ≠ v0 then some false else rowPairCheck x0s rs

/-- Outer loop of `isSameValue` over the rows `X[1..]`. -/
def rowsCheck (x0 : List ℚ) : List (List ℚ) → Option Bool
  | [] => some true
  | r :: rs =>
    match rowPairCheck (x0.drop 1) (r.drop 1) with
    | none => none
    | some false => some false
    | some true => rowsCheck x0 rs

/-- `isSameValue`: returns `true` when every row agrees with row `0` on every
column index `≥ 1` — the inner loop starts at `j = 1`, so column `0` is never
inspected.  An empty matrix yields `true` (the outer loop starts at `i = 1`). -/
def isSameValue (X : FMatrix) : Option Bool :=
  match X with
  | [] => some true
  | x0 :: rest => rowsCheck x0 rest

/-- `selectFeatures`: draw loop, `i` ascending. -/
def sfLoop : Nat → Nat → RNG → Option (List Nat × RNG)
  | 0, _, g => some ([], g)
  | n + 1, nf, g =>
    match randIntn nf g with
    | none => none
    | some (v, g1) =>
      match sfLoop n nf g1 with
      | none => none
      | some (rest, g2) => some (v :: rest, g2)

/-- `selectFeatures`: `make([]int, MaxFeatures)` panics for a negative length;
then `MaxFeatures` independent draws `rand.Intn(numFeatures)` (duplicates
allowed, `rand.Intn(0)` panics). -/
def selectFeatures (maxFeatures : Int) (numFeatures : Nat) (g : RNG) :
    Option (List Nat × RNG) :=
  if maxFeatures < 0 then none
  else sfLoop maxFeatures.toNat numFeatures g

/-- The `leftY`/`rightY` partition built inside the threshold loop of
`findBestSplitForFeature`: row `i` contributes `y[i]` to the left side iff
`X[i][featureIndex] < threshold`.  Reading `X[i][featureIndex]` out of range
or `y[i]` beyond `len(y)` panics (`none`); labels beyond `len(X)` are ignored
(the loop ranges over `X`). -/
def partitionLabels (X : FMatrix) (y : List ℚ) (fi : Nat) (th : ℚ) :
    Option (List ℚ × List ℚ) :=
  match X, y with
  | [], _ => some ([], [])
  | _ :: _, [] => none
  | row :: Xs, lab :: ys =>
    match row[fi]? with
    | none => none
    | some v =>
      match partitionLabels Xs ys fi th with
      | none => none
      | some (lY, rY) =>
        if v < th then some (lab :: lY, rY) else some (lY, lab :: rY)

/-- Insertion into a sorted list, used to model `sort.Float64s`. -/
def insertSorted (x : ℚ) : List ℚ → List ℚ
  | [] => [x]
  | y :: ys => if x ≤ y then x :: y :: ys else y :: insertSorted x ys

/-- `sort.Float64s`: ascending order (equal elements are interchangeable
rationals, so any correct sort is the same function). -/
def sortRats (l : List ℚ) : List ℚ := l.foldr insertSorted []

/-- Threshold loop of `findBestSplitForFeature`: `bestThreshold` starts at the
zero value `0.0`, `bestScore` at `-Inf` (`⊥`).  A `NaN` score (`none` from
`calculateScore`) fails the `score > bestScore` comparison and is skipped. -/
def evalSplits (task : String) (X : FMatrix) (y : List ℚ) (fi : Nat) :
    List ℚ → ℚ → WithBot ℚ → Option (ℚ × WithBot ℚ)
  | [], bt, bs => some (bt, bs)
  | th :: ths, bt, bs =>
    match partitionLabels X y fi th with
    | none => none
    | some (lY, rY) =>
      match calculateScore task lY rY with
      | none => evalSplits task X y fi ths bt bs
      | some s =>
        if bs < (s : WithBot ℚ) then evalSplits task X y fi ths th s
        else evalSplits task X y fi ths bt bs

/-- `findBestSplitForFeature`: collect the feature column (panicking on a
ragged row), sort it, form the midpoints of adjacent sorted values, and scan
them; `make([]float64, len(X)-1)` panics for an empty `X` (negative length).
Returns Go's `(bestThreshold, bestScore)` pair. -/
def findBestSplitForFeature (task : String) (X : FMatrix) (y : List ℚ) (fi : Nat) :
    Option (ℚ × WithBot ℚ) :=
  match X.mapM (fun row => row[fi]?) with
  | none => none
  | some featureValues =>
    match X with
    | [] => none
    | _ :: _ =>
      let sorted := sortRats featureValues
      let splitPoints := List.zipWith (fun a b => (a + b) / 2) sorted sorted.tail
      evalSplits task X y fi splitPoints 0 ⊥

/-- Feature loop of `findBestSplit`: `bestFeatureIndex` starts at `-1` and
`bestThreshold` at `+Inf`, modelled together as `none`; `bestScore` starts at
`-Inf` (`⊥`). -/
def fbsLoop (task : String) (X : FMatrix) (y : List ℚ) :
    List Nat → Option (Nat × ℚ) → WithBot ℚ → Option (Option (Nat × ℚ))
  | [], best, _ => some best
  | fi :: fis, best, bs =>
    match findBestSplitForFeature task X y fi with
    | none => none
    | some (th, score) =>
      if bs < score then fbsLoop task X y fis (some (fi, th)) score
      else fbsLoop task X y fis best bs

/-- `findBestSplit` over the selected features.  The inner `none` is Go's
`(bestFeatureIndex, bestThreshold) = (-1, +Inf)` result, reached when no
feature ever improves on the `-Inf` sentinel. -/
def findBestSplit (task : String) (X : FMatrix) (y : List ℚ)
    (selectedFeatures : List Nat) : Option (Option (Nat × ℚ)) :=
  fbsLoop task X y selectedFeatures none ⊥

/-- `splitData`: partition rows and labels by `X[i][featureIndex] < threshold`,
preserving order; out-of-range reads of `X[i][featureIndex]` or `y[i]` panic. -/
def splitData (X : FMatrix) (y : List ℚ) (fi : Nat) (th : ℚ) :
    Option (FMatrix × List ℚ × FMatrix × List ℚ) :=
  match X, y with
  | [], _ => some ([], [], [], [])
  | _ :: _, [] => none
  | row :: Xs, lab :: ys =>
    match row[fi]? with
    | none => none
    | some v =>
      match splitData Xs ys fi th with
      | none => none
      | some (lX, lY, rX, rY) =>
        if v < th then some (row :: lX, lab :: lY, rX, rY)
        else some (lX, lY, row :: rX, lab :: rY)

/-- `buildTree` (the depth parameter is placed first so that the recursion is
structural; the source signature is `buildTree(X, y, depth)`).  Faithful to
the source for every depth `≥ 0`:
* empty `y` returns the nil pointer;
* at depth `0` the `depth == 0 || ...` disjunction short-circuits to a leaf
  (so `isSameClass`/`isSameValue` are not evaluated, exactly as in Go);
* otherwise `isSameClass y` then `isSameValue X` decide a leaf;
* otherwise `numFeatures := len(X[0])` (panicking on an empty `X`), a feature
  subset is drawn, the best split found (`-1` from `findBestSplit` makes
  `splitData` read `X[i][-1]`, a panic on the nonempty `X`), the data split,
  and the children built left first at `depth - 1`.  The internal node keeps
  the zero value `0` in its `Prediction` field. -/
def buildTree (task : String) (maxFeatures : Int) :
    Nat → FMatrix → List ℚ → RNG → Option (NodePtr × RNG)
  | 0, _X, y, g =>
    if y = [] then some (NodePtr.null, g)
    else some (NodePtr.node 0 0 (getLeafPrediction task y) NodePtr.null NodePtr.null, g)
  | d + 1, X, y, g =>
    if y = [] then some (NodePtr.null, g)
    else if isSameClass y then
      some (NodePtr.node 0 0 (getLeafPrediction task y) NodePtr.null NodePtr.null, g)
    else
      match isSameValue X with
      | none => none
      | some true =>
        some (NodePtr.node 0 0 (getLeafPrediction task y) NodePtr.null NodePtr.null, g)
      | some false =>
        match X with
        | [] => none
        | x0 :: _ =>
          match selectFeatures maxFeatures x0.length g with
          | none => none
          | some (feats, g1) =>
            match findBestSplit task X y feats with
            | none => none
            | some none => none
            | some (some (bfi, bth)) =>
              match splitData X y bfi bth with
              | none => none
              | some (lX, lY, rX, rY) =>
                match buildTree task maxFeatures d lX lY g1 with
                | none => none
                | some (leftNode, g2) =>
                  match buildTree task maxFeatures d rX rY g2 with
                  | none => none
                  | some (rightNode, g3) =>
                    some (NodePtr.node bfi bth 0 leftNode rightNode, g3)

/-- `TrainDecisionTree`: sets the root to `buildTree(X, y, dt.MaxDepth)`.
A negative `MaxDepth` makes the Go recursion unbounded whenever a partition
stays impure (the `depth == 0` stop is never reached); the embedding maps that
regime to `none` (see the header). -/
def TrainDecisionTree (dt : DecisionTree) (X : FMatrix) (y : List ℚ) (g : RNG) :
    Option (DecisionTree × RNG) :=
  if dt.maxDepth < 0 then none
  else
    match buildTree dt.task dt.maxFeatures dt.maxDepth.toNat X y g with
    | none => none
    | some (root, g1) => some ({ dt with root := root }, g1)

/-- `traverseTree`: a node with two nil children returns its prediction;
otherwise compare `sample[node.FeatureIndex] < node.Threshold` (an
out-of-range read panics) and recurse; dereferencing a nil node
(`node.Left` on nil) panics. -/
def traverseTree (sample : List ℚ) : NodePtr → Option ℚ
  | NodePtr.null => none
  | NodePtr.node _ _ pr NodePtr.null NodePtr.null => some pr
  | NodePtr.node fi th _ l r =>
    match sample[fi]? with
    | none => none
    | some v => if v < th then traverseTree sample l else traverseTree sample r

/-- `PredictDecisionTree`: traverse from the root (a nil root panics inside
`traverseTree`). -/
def PredictDecisionTree (dt : DecisionTree) (sample : List ℚ) : Option ℚ :=
  traverseTree sample dt.root

/-- Bootstrap draw loop: each iteration draws `rand.Intn(numSamples)` and reads
`X[index]` and `y[index]` (panicking out of range; in particular `y` shorter
than the drawn index range). -/
def bsLoop (X : FMatrix) (y : List ℚ) (numSamples : Nat) :
    Nat → RNG → Option ((FMatrix × List ℚ) × RNG)
  | 0, g => some (([], []), g)
  | k + 1, g =>
    match randIntn numSamples g with
    | none => none
    | some (idx, g1) =>
      match X[idx]? with
      | none => none
      | some row =>
        match y[idx]? with
        | none => none
        | some lab =>
          match bsLoop X y numSamples k g1 with
          | none => none
          | some ((Xs, ys), g2) => some ((row :: Xs, lab :: ys), g2)

/-- `bootstrapSample`: `numSamples` draws with replacement. -/
def bootstrapSample (X : FMatrix) (y : List ℚ) (numSamples : Nat) (g : RNG) :
    Option ((FMatrix × List ℚ) × RNG) :=
  bsLoop X y numSamples numSamples g

/-- Tree loop of `TrainRandomForest`: iteration `i` bootstrap-samples, trains a
fresh tree, and assigns `rf.Trees[i] = tree` (an out-of-range assignment
panics). -/
def trainLoop (maxDepth maxFeatures : Int) (task : String) (X : FMatrix)
    (y : List ℚ) (numSamples : Nat) :
    Nat → Nat → List (Option DecisionTree) → RNG →
      Option (List (Option DecisionTree) × RNG)
  | _, 0, trees, g => some (trees, g)
  | i, k + 1, trees, g =>
    match bootstrapSample X y numSamples g with
    | none => none
    | some ((Xs, ys), g1) =>
      match TrainDecisionTree (NewDecisionTree maxDepth maxFeatures task) Xs ys g1 with
      | none => none
      | some (tr, g2) =>
        if i < trees.length then
          trainLoop maxDepth maxFeatures task X y numSamples
            (i + 1) k (trees.set i (some tr)) g2
        else none

/-- `TrainRandomForest`: `numSamples := len(X)`, then `NumTrees` iterations of
bootstrap + `TrainDecisionTree`.  No validation of any kind is performed on
the hyperparameters or on the dimensions of `X` and `y`. -/
def TrainRandomForest (rf : RandomForest) (X : FMatrix) (y : List ℚ) (g : RNG) :
    Option (RandomForest × RNG) :=
  match trainLoop rf.maxDepth rf.maxFeatures rf.task X y X.length
      0 rf.numTrees.toNat rf.trees g with
  | none => none
  | some (trees, g1) => some ({ rf with trees := trees }, g1)

/-- Prediction-collection loop of `PredictRandomForest`: `predictions` has
length `NumTrees` and the loop ranges over `rf.Trees`, writing
`predictions[i]` (an out-of-range write panics; a nil tree pointer panics when
its `Root` field is read). -/
def predsLoop (sample : List ℚ) :
    List (Option DecisionTree) → Nat → List ℚ → Option (List ℚ)
  | [], _, preds => some preds
  | t :: ts, i, preds =>
    match t with
    | none => none
    | some dt =>
      match PredictDecisionTree dt sample with
      | none => none
      | some v =>
        if i < preds.length then predsLoop sample ts (i + 1) (preds.set i v)
        else none

/-- `predictions := make([]float64, rf.NumTrees)` (panicking for a negative
length) followed by the collection loop. -/
def forestPredictions (rf : RandomForest) (sample : List ℚ) : Option (List ℚ) :=
  if rf.numTrees < 0 then none
  else predsLoop sample rf.trees 0 (List.replicate rf.numTrees.toNat 0)

/-- `PredictRandomForest`: collect the per-tree predictions, then majority vote
(classification) or mean (regression); any other task string returns
`math.NaN()` (`none`), and the regression mean of zero trees is `0.0/0.0 = NaN`
(`none`). -/
def PredictRandomForest (rf : RandomForest) (sample : List ℚ) : Option ℚ :=
  match forestPredictions rf sample with
  | none => none
  | some preds =>
    if rf.task = "classification" then some (majorityVote preds)
    else if rf.task = "regression" then
      (if preds = [] then none else some (mean preds))
    else none

/-- Is this pointer nil? -/
def isNull : NodePtr → Bool
  | NodePtr.null => true
  | NodePtr.node _ _ _ _ _ => false

/-- Leaf nodes in the sense of the source: both child pointers nil. -/
def isLeafNode : NodePtr → Bool
  | NodePtr.node _ _ _ NodePtr.null NodePtr.null => true
  | _ => false

/-- Some node of the tree has exactly one nil child (a single-child internal
node in the sense of the spec). -/
def hasSingleNilChild : NodePtr → Bool
  | NodePtr.null => false
  | NodePtr.node _ _ _ l r =>
    (isNull l != isNull r) || hasSingleNilChild l || hasSingleNilChild r

/-- Edge count of the longest root-to-leaf path (0 for nil and for leaves). -/
def treeDepth : NodePtr → Nat
  | NodePtr.null => 0
  | NodePtr.node _ _ _ NodePtr.null NodePtr.null => 0
  | NodePtr.node _ _ _ l r => 1 + max (treeDepth l) (treeDepth r)

/-- Spec-side predicate for claim C6, following the words of the spec: all
feature rows are identical, equal in every column (including column 0). -/
def specRowsIdentical (X : FMatrix) : Bool :=
  match X with
  | [] => true
  | r :: rs => rs.all (fun row => row == r)

/-- Spec-side Gini impurity for claim C8, following the words of the spec:
`1 - Σ p_c²` over the class proportions of the labels present. -/
def giniSpecImpurity (y : List ℚ) : ℚ :=
  1 - ((firstOccurrences y).map
    (fun c => ((y.count c : ℚ) / (y.length : ℚ)) ^ 2)).sum

/-! ## Basic structural lemmas -/

/-- `buildTree` on an empty label vector returns the nil pointer untouched,
for every depth. -/
theorem buildTree_empty_labels (task : String) (mf : Int) (depth : Nat)
    (X : FMatrix) (g : RNG) :
    buildTree task mf depth X [] g = some (NodePtr.null, g) := by
  cases depth <;> simp [buildTree]

/-- A successful `buildTree` run returns the nil pointer exactly when the
label vector was empty. -/
theorem buildTree_null_iff (task : String) (mf : Int) (depth : Nat)
    (X : FMatrix) (y : List ℚ) (g : RNG) (r : NodePtr) (g1 : RNG)
    (h : buildTree task mf depth X y g = some (r, g1)) :
    r = NodePtr.null ↔ y = [] := by
  cases depth with
  | zero =>
    by_cases hy : y = [] <;> simp [buildTree, hy] at h <;> simp [← h.1, hy]
  | succ d =>
    by_cases hy : y = []
    · simp [buildTree, hy] at h
      simp [← h.1, hy]
    · have hne : r ≠ NodePtr.null := by
        simp only [buildTree, if_neg hy] at h
        repeat' split at h
        all_goals cases h
        all_goals simp
      simp [hne, hy]

/-- `buildTree` bounds the edge count of every root-to-leaf path by the depth
budget it was invoked with. -/
theorem buildTree_treeDepth_le :
    ∀ (depth : Nat) (task : String) (mf : Int) (X : FMatrix) (y : List ℚ)
      (g : RNG) (r : NodePtr) (g1 : RNG),
      buildTree task mf depth X y g = some (r, g1) → treeDepth r ≤ depth := by
  intro depth
  induction depth with
  | zero =>
    intro task mf X y g r g1 h
    by_cases hy : y = [] <;> simp [buildTree, hy] at h <;> simp [← h.1, treeDepth]
  | succ d ih =>
    intro task mf X y g r g1 h
    by_cases hy : y = []
    · simp [buildTree, hy] at h
      simp [← h.1, treeDepth]
    · simp only [buildTree, if_neg hy] at h
      by_cases hc : isSameClass y = true
      · rw [if_pos hc] at h
        cases h
        simp [treeDepth]
      · rw [if_neg hc] at h
        cases hsv : isSameValue X with
        | none => simp [hsv] at h
        | some b =>
          simp only [hsv] at h
          cases b with
          | true =>
            cases h
            simp [treeDepth]
          | false =>
            cases X with
            | nil => simp at h
            | cons x0 Xs0 =>
              simp only at h
              cases hsf : selectFeatures mf x0.length g with
              | none => simp [hsf] at h
              | some p1 =>
                obtain ⟨feats, g2⟩ := p1
                simp only [hsf] at h
                cases hfb : findBestSplit task (x0 :: Xs0) y feats with
                | none => simp [hfb] at h
                | some best =>
                  simp only [hfb] at h
                  cases best with
                  | none => simp at h
                  | some p2 =>
                    obtain ⟨bfi, bth⟩ := p2
                    simp only at h
                    cases hsd : splitData (x0 :: Xs0) y bfi bth with
                    | none => simp [hsd] at h
                    | some q =>
                      obtain ⟨lX, lY, rX, rY⟩ := q
                      simp only [hsd] at h
                      cases hbl : buildTree task mf d lX lY g2 with
                      | none => simp [hbl] at h
                      | some pl =>
                        obtain ⟨leftNode, g3⟩ := pl
                        simp only [hbl] at h
                        cases hbr : buildTree task mf d rX rY g3 with
                        | none => simp [hbr] at h
                        | some pr =>
                          obtain ⟨rightNode, g4⟩ := pr
                          simp only [hbr] at h
                          cases h
                          have hl := ih task mf lX lY g2 leftNode _ hbl
                          have hr := ih task mf rX rY g3 rightNode _ hbr
                          cases leftNode <;> cases rightNode <;>
                            simp [treeDepth] at hl hr ⊢ <;> omega

/-! ## Claim C1 -/

/-- C1 counterexample: `TrainRandomForest` performs no validation at all.
First conjunct: a forest configured with `maxFeatures = 3` on data with only
2 features (the shape of spec Scenario D) trains successfully instead of
failing with a `ConfigurationError`.  Second conjunct: training on 5 feature
rows with only 4 labels also succeeds (the bootstrap draws of this stream all
hit index 0), fitting a model instead of failing with a
`DimensionMismatchError`. -/
theorem claimC1_counterexample :
    (TrainRandomForest ⟨[none], 1, 1, 3, "classification"⟩
        [[1, 5], [2, 9]] [(0 : ℚ), 1] [0, 1]).isSome = true ∧
    (TrainRandomForest ⟨[none], 1, 5, 1, "classification"⟩
        [[0], [1], [2], [3], [4]] [(0 : ℚ), 1, 1, 0] []).isSome = true := by
  decide

/-- C1 (amended): `TrainRandomForest` validates nothing.  In particular a
forest with `numTrees ≤ 0` trains by doing nothing at all: the loop body never
runs and the forest is returned unchanged, with no error of any kind. -/
theorem claimC1_amended (rf : RandomForest) (X : FMatrix) (y : List ℚ) (g : RNG)
    (h : rf.numTrees ≤ 0) : TrainRandomForest rf X y g = some (rf, g) := by
  simp [TrainRandomForest, Int.toNat_of_nonpos h, trainLoop]

/-- C1 witness: a forest with `numTrees = 0` is returned unchanged. -/
theorem claimC1_witness :
    TrainRandomForest ⟨[], 0, 1, 1, "classification"⟩ [[1]] [2] [] =
      some (⟨[], 0, 1, 1, "classification"⟩, []) :=
  claimC1_amended ⟨[], 0, 1, 1, "classification"⟩ [[1]] [2] [] (by decide)

/-! ## Claim C2 -/

/-- C2 counterexample.  First conjunct: prediction on a forest whose tree list
is empty returns the zero value `0.0` of the majority vote, instead of failing
with a `NotTrainedError`.  Second conjunct: a trained single-leaf forest
predicts an empty sample (shorter than the 1-column training data)
successfully, instead of failing with a `DimensionMismatchError`. -/
theorem claimC2_counterexample :
    PredictRandomForest ⟨[], 0, 1, 1, "classification"⟩ [5] = some 0 ∧
    PredictRandomForest
        ⟨[some ⟨NodePtr.node 0 0 7 NodePtr.null NodePtr.null, 1, 1,
            "classification"⟩], 1, 1, 1, "classification"⟩ [] = some 7 := by
  decide

/-- C2 (amended): `PredictRandomForest` raises no typed error.  On a
classification forest whose tree list is empty (`numTrees = 0`) it returns the
zero value `0.0`; a forest holding nil tree pointers makes the Go code panic
on a nil dereference; an undersized sample fails only when a traversal
actually reads an out-of-range index, and otherwise silently returns a
prediction. -/
theorem claimC2_amended (rf : RandomForest) (sample : List ℚ)
    (h1 : rf.trees = []) (h2 : rf.numTrees = 0) (h3 : rf.task = "classification") :
    PredictRandomForest rf sample = some 0 := by
  simp [PredictRandomForest, forestPredictions, h1, h2, h3, predsLoop,
    majorityVote, firstOccurrences]

/-- C2 witness: the empty classification forest predicts `0`. -/
theorem claimC2_witness :
    PredictRandomForest ⟨[], 0, 2, 2, "classification"⟩ [1, 2] = some 0 :=
  claimC2_amended ⟨[], 0, 2, 2, "classification"⟩ [1, 2] rfl rfl rfl

/-! ## Claim C3 -/

/-- C3 counterexample: on `X = [[0,0],[0,1]]`, `y = [0,1]` with
`maxFeatures = 1` and a stream that selects feature 0 (whose column is
constant), every candidate threshold puts all rows on one side, yet the
builder still returns an Internal node — one whose left child is nil — rather
than a leaf: the resulting tree contains a single-nil-child internal node. -/
theorem claimC3_counterexample :
    (buildTree "classification" 1 2 [[0, 0], [0, 1]] [(0 : ℚ), 1] []).elim
      false (fun p => hasSingleNilChild p.1) = true := by
  decide

/-- C3 (amended): a successful `buildTree` run returns the nil pointer exactly
when the partition is empty; on a non-empty partition it always returns a real
node.  Consequently a nil child of an Internal node marks exactly an empty
side of a degenerate split — and such single-nil-child Internal nodes do occur
(the builder does not turn a no-viable-split condition into a leaf). -/
theorem claimC3_amended (task : String) (mf : Int) (depth : Nat) (X : FMatrix)
    (y : List ℚ) (g : RNG) (r : NodePtr) (g1 : RNG)
    (h : buildTree task mf depth X y g = some (r, g1)) :
    r = NodePtr.null ↔ y = [] :=
  buildTree_null_iff task mf depth X y g r g1 h

/-- C3 witness: a concrete successful build on a singleton partition. -/
theorem claimC3_witness :
    (NodePtr.node 0 0 5 NodePtr.null NodePtr.null = NodePtr.null ↔
      ([(5 : ℚ)] : List ℚ) = []) :=
  claimC3_amended "classification" 1 1 [[1]] [5] []
    (NodePtr.node 0 0 5 NodePtr.null NodePtr.null) [] (by decide)

/-! ## Claim C4 -/

/-- C4 counterexample: `buildTree` invoked on an empty label vector does not
fail at all — there is no `EmptyPartitionError` anywhere in the code — it
returns the nil pointer as a normal result. -/
theorem claimC4_counterexample :
    buildTree "classification" 1 3 [[1], [2]] [] [] = some (NodePtr.null, []) := by
  decide

/-- C4 (amended): for every invocation with an empty label vector, `buildTree`
returns the nil pointer unchanged (no error is raised and the empty partition
is never dereferenced; the nil is silently attached as a child of the caller's
Internal node). -/
theorem claimC4_amended (task : String) (mf : Int) (depth : Nat) (X : FMatrix)
    (g : RNG) : buildTree task mf depth X [] g = some (NodePtr.null, g) :=
  buildTree_empty_labels task mf depth X g

/-! ## Claim C5 -/

/-- C5 counterexample: the code draws all randomness from the single advancing
global generator stream and never derives per-call or per-tree seeds, so a
second `TrainRandomForest` call with identical inputs — continuing on the
stream state the first call left behind — produces a structurally different
ensemble (the two runs split on different feature indices). -/
theorem claimC5_counterexample :
    (TrainRandomForest ⟨[none], 1, 1, 1, "classification"⟩
        [[0, 0], [1, 1]] [(0 : ℚ), 1] [0, 1, 0, 1, 0, 1]).isSome = true ∧
    ((TrainRandomForest ⟨[none], 1, 1, 1, "classification"⟩
          [[0, 0], [1, 1]] [(0 : ℚ), 1] [0, 1, 0, 1, 0, 1]).bind
        (fun p => TrainRandomForest ⟨[none], 1, 1, 1, "classification"⟩
          [[0, 0], [1, 1]] [(0 : ℚ), 1] p.2)).isSome = true ∧
    (TrainRandomForest ⟨[none], 1, 1, 1, "classification"⟩
        [[0, 0], [1, 1]] [(0 : ℚ), 1] [0, 1, 0, 1, 0, 1]).map Prod.fst ≠
      ((TrainRandomForest ⟨[none], 1, 1, 1, "classification"⟩
          [[0, 0], [1, 1]] [(0 : ℚ), 1] [0, 1, 0, 1, 0, 1]).bind
        (fun p => TrainRandomForest ⟨[none], 1, 1, 1, "classification"⟩
          [[0, 0], [1, 1]] [(0 : ℚ), 1] p.2)).map Prod.fst := by
  decide

/-- C5 (amended): training is a deterministic function of the inputs together
with the pre-call state of the global generator stream: a single call has
exactly one result.  Reproducibility holds only at equal stream states; it is
not derived from any top-level seed parameter, which the code does not have. -/
theorem claimC5_amended (rf : RandomForest) (X : FMatrix) (y : List ℚ) (g : RNG)
    (f1 : RandomForest) (s1 : RNG) (f2 : RandomForest) (s2 : RNG)
    (h1 : TrainRandomForest rf X y g = some (f1, s1))
    (h2 : TrainRandomForest rf X y g = some (f2, s2)) :
    f1 = f2 ∧ s1 = s2 := by
  rw [h1] at h2
  injection h2 with h3
  exact ⟨congrArg Prod.fst h3, congrArg Prod.snd h3⟩

/-- C5 witness: instantiated on a concrete one-tree training run. -/
theorem claimC5_witness :
    (⟨[some ⟨NodePtr.node 0 0 3 NodePtr.null NodePtr.null, 1, 1,
        "classification"⟩], 1, 1, 1, "classification"⟩ : RandomForest) =
      ⟨[some ⟨NodePtr.node 0 0 3 NodePtr.null NodePtr.null, 1, 1,
        "classification"⟩], 1, 1, 1, "classification"⟩ ∧
    ([] : RNG) = [] :=
  claimC5_amended ⟨[none], 1, 1, 1, "classification"⟩ [[7]] [3] []
    ⟨[some ⟨NodePtr.node 0 0 3 NodePtr.null NodePtr.null, 1, 1,
        "classification"⟩], 1, 1, 1, "classification"⟩ []
    ⟨[some ⟨NodePtr.node 0 0 3 NodePtr.null NodePtr.null, 1, 1,
        "classification"⟩], 1, 1, 1, "classification"⟩ []
    (by decide) (by decide)

/-! ## Claim C9 -/

/-- C9: every root-to-leaf path of a tree trained by `TrainDecisionTree` with
a depth bound `maxDepth ≥ 0` has at most `maxDepth` edges. -/
theorem claimC9 (dt : DecisionTree) (X : FMatrix) (y : List ℚ) (g : RNG)
    (dt2 : DecisionTree) (g1 : RNG) (hd : 0 ≤ dt.maxDepth)
    (h : TrainDecisionTree dt X y g = some (dt2, g1)) :
    (treeDepth dt2.root : Int) ≤ dt.maxDepth := by
  rw [TrainDecisionTree, if_neg (by omega)] at h
  cases hb : buildTree dt.task dt.maxFeatures dt.maxDepth.toNat X y g with
  | none => rw [hb] at h; cases h
  | some p =>
    obtain ⟨root, g2⟩ := p
    rw [hb] at h
    cases h
    have := buildTree_treeDepth_le dt.maxDepth.toNat dt.task dt.maxFeatures
      X y g root _ hb
    show (treeDepth root : Int) ≤ dt.maxDepth
    omega

/-- C9 witness: a concrete 2-row training run stays within its bound of 2. -/
theorem claimC9_witness :
    (treeDepth (⟨NodePtr.node 0 0 0 NodePtr.null NodePtr.null, 2, 1,
        "classification"⟩ : DecisionTree).root : Int) ≤
      (⟨NodePtr.null, 2, 1, "classification"⟩ : DecisionTree).maxDepth :=
  claimC9 ⟨NodePtr.null, 2, 1, "classification"⟩ [[0], [1]] [0, 1] []
    ⟨NodePtr.node 0 0 0 NodePtr.null NodePtr.null, 2, 1, "classification"⟩ []
    (by decide) (by decide)

/-! ## The majority-vote scan -/

/-- The canonical key enumeration contains exactly the values of the list. -/
theorem firstOccurrences_mem : ∀ (l : List ℚ) (a : ℚ),
    a ∈ firstOccurrences l ↔ a ∈ l := by
  intro l
  induction l with
  | nil => intro a; simp [firstOccurrences]
  | cons x t ih =>
    intro a
    by_cases hax : a = x
    · simp [firstOccurrences, hax]
    · simp [firstOccurrences, List.mem_filter, ih, hax]

/-- The canonical key enumeration has no duplicates. -/
theorem firstOccurrences_nodup : ∀ (l : List ℚ), (firstOccurrences l).Nodup := by
  intro l
  induction l with
  | nil => simp [firstOccurrences]
  | cons x t ih =>
    simp only [firstOccurrences]
    refine List.Nodup.cons ?_ (ih.filter _)
    simp [List.mem_filter]

/-- The canonical key enumeration lists keys in strictly increasing order of
their first occurrence in the list. -/
theorem firstOccurrences_pairwise : ∀ (l : List ℚ),
    (firstOccurrences l).Pairwise (fun a b => l.indexOf a < l.indexOf b) := by
  intro l
  induction l with
  | nil => simp [firstOccurrences]
  | cons x t ih =>
    simp only [firstOccurrences]
    constructor
    · intro b hb
      have hbt : b ∈ firstOccurrences t := List.mem_of_mem_filter hb
      have hbx : b ≠ x := by
        have := List.of_mem_filter hb
        simpa using this
      rw [List.indexOf_cons_self, List.indexOf_cons_ne t hbx.symm]
      exact Nat.succ_pos _
    · have hpairs : ((firstOccurrences t).filter (fun c => c ≠ x)).Pairwise
          (fun a b => t.indexOf a < t.indexOf b) :=
        List.Pairwise.sublist (List.filter_sublist _) ih
      refine hpairs.imp_of_mem ?_
      intro a b ha hb hab
      have hax : a ≠ x := by simpa using List.of_mem_filter ha
      have hbx : b ≠ x := by simpa using List.of_mem_filter hb
      rw [List.indexOf_cons_ne t hax.symm, List.indexOf_cons_ne t hbx.symm]
      omega

/-- Invariant of the strict-improvement scan of `majorityVote`: the final
count dominates every key count and the starting count; the final pair is
either untouched or holds the count of its own key, a key placed no later
than any other key attaining that count. -/
theorem voteFold_spec (l : List ℚ) :
    ∀ (keys : List ℚ) (m0 : ℚ) (c0 : Nat) (m : ℚ) (c : Nat),
      keys.foldl (fun acc k => if l.count k > acc.2 then (k, l.count k) else acc)
        (m0, c0) = (m, c) →
      (∀ k ∈ keys, l.count k ≤ c) ∧ c0 ≤ c ∧
      ((m = m0 ∧ c = c0) ∨
        (m ∈ keys ∧ c = l.count m ∧ c0 < c ∧
          ∀ k ∈ keys, l.count k = c → keys.indexOf m ≤ keys.indexOf k)) := by
  intro keys
  induction keys with
  | nil =>
    intro m0 c0 m c h
    simp only [List.foldl_nil] at h
    cases h
    exact ⟨by simp, le_refl _, Or.inl ⟨rfl, rfl⟩⟩
  | cons k0 rest ih =>
    intro m0 c0 m c h
    simp only [List.foldl_cons] at h
    by_cases h0 : l.count k0 > c0
    · rw [if_pos h0] at h
      obtain ⟨hall, hge, hdisj⟩ := ih k0 (l.count k0) m c h
      refine ⟨?_, ?_, ?_⟩
      · intro k hk
        rcases List.mem_cons.mp hk with hk | hk
        · subst hk; exact hge
        · exact hall k hk
      · omega
      · rcases hdisj with ⟨hm, hc⟩ | ⟨hmem, hcm, hlt, htie⟩
        · refine Or.inr ⟨hm ▸ List.mem_cons_self k0 rest, ?_, by omega, ?_⟩
          · rw [hm, hc]
          · intro k _ _
            rw [hm, List.indexOf_cons_self]
            exact Nat.zero_le _
        · refine Or.inr ⟨List.mem_cons_of_mem k0 hmem, hcm, by omega, ?_⟩
          intro k hk hck
          rcases List.mem_cons.mp hk with hk | hk
          · exfalso
            subst hk
            omega
          · have hmne : m ≠ k0 := by
              intro hEq
              rw [hEq] at hcm
              omega
            have hkne : k ≠ k0 := by
              intro hEq
              rw [hEq] at hck
              omega
            rw [List.indexOf_cons_ne rest hmne.symm,
              List.indexOf_cons_ne rest hkne.symm]
            exact Nat.succ_le_succ (htie k hk hck)
    · rw [if_neg h0] at h
      obtain ⟨hall, hge, hdisj⟩ := ih m0 c0 m c h
      refine ⟨?_, hge, ?_⟩
      · intro k hk
        rcases List.mem_cons.mp hk with hk | hk
        · subst hk; omega
        · exact hall k hk
      · rcases hdisj with hl | ⟨hmem, hcm, hlt, htie⟩
        · exact Or.inl hl
        · refine Or.inr ⟨List.mem_cons_of_mem k0 hmem, hcm, hlt, ?_⟩
          intro k hk hck
          rcases List.mem_cons.mp hk with hk | hk
          · exfalso
            subst hk
            omega
          · have hmne : m ≠ k0 := by
              intro hEq
              rw [hEq] at hcm
              omega
            have hkne : k ≠ k0 := by
              intro hEq
              rw [hEq] at hck
              omega
            rw [List.indexOf_cons_ne rest hmne.symm,
              List.indexOf_cons_ne rest hkne.symm]
            exact Nat.succ_le_succ (htie k hk hck)

/-- `majorityVote` on a non-empty list returns a most frequent element, and
among the most frequent elements the one whose first occurrence comes
earliest in the canonical scan order. -/
theorem majorityVote_spec (l : List ℚ) (hl : l ≠ []) :
    majorityVote l ∈ l ∧
    (∀ c ∈ l, l.count c ≤ l.count (majorityVote l)) ∧
    (∀ c ∈ l, l.count c = l.count (majorityVote l) →
      l.indexOf (majorityVote l) ≤ l.indexOf c) := by
  set r := (firstOccurrences l).foldl
      (fun acc c => if l.count c > acc.2 then (c, l.count c) else acc)
      ((0 : ℚ), (0 : Nat)) with hr
  have hmv : majorityVote l = r.1 := rfl
  obtain ⟨hall, hge, hdisj⟩ :=
    voteFold_spec l (firstOccurrences l) 0 0 r.1 r.2 (by rw [← hr])
  obtain ⟨a, ha⟩ := List.exists_mem_of_ne_nil l hl
  have hak : a ∈ firstOccurrences l := (firstOccurrences_mem l a).mpr ha
  have h1 : 0 < l.count a := List.count_pos_iff.mpr ha
  have hcpos : 0 < r.2 := lt_of_lt_of_le h1 (hall a hak)
  rcases hdisj with ⟨_, hc0⟩ | ⟨hmem, hcm, _, htie⟩
  · omega
  · refine ⟨?_, ?_, ?_⟩
    · rw [hmv]
      exact (firstOccurrences_mem l r.1).mp hmem
    · intro c hcl
      rw [hmv, ← hcm]
      exact hall c ((firstOccurrences_mem l c).mpr hcl)
    · intro c hcl hcc
      rw [hmv] at hcc ⊢
      by_cases hceq : r.1 = c
      · rw [hceq]
      · have hck : c ∈ firstOccurrences l := (firstOccurrences_mem l c).mpr hcl
        have hc2 : l.count c = r.2 := by rw [hcc]; exact hcm.symm
        have hkey := htie c hck hc2
        have hm1 : (firstOccurrences l).indexOf r.1 < (firstOccurrences l).length :=
          List.indexOf_lt_length.mpr hmem
        have hm2 : (firstOccurrences l).indexOf c < (firstOccurrences l).length :=
          List.indexOf_lt_length.mpr hck
        have hlt2 : (firstOccurrences l).indexOf r.1 <
            (firstOccurrences l).indexOf c := by
          rcases lt_or_eq_of_le hkey with hcase | hcase
          · exact hcase
          · exfalso
            apply hceq
            have e1 := List.getElem_indexOf hm1
            have e2 := List.getElem_indexOf hm2
            have hfin : (⟨(firstOccurrences l).indexOf r.1, hm1⟩ :
                Fin (firstOccurrences l).length) =
                ⟨(firstOccurrences l).indexOf c, hm2⟩ := Fin.ext hcase
            have hgg := congrArg (firstOccurrences l).get hfin
            rw [List.get_eq_getElem, List.get_eq_getElem] at hgg
            rw [e1, e2] at hgg
            exact hgg
        have hpw := firstOccurrences_pairwise l
        rw [List.pairwise_iff_getElem] at hpw
        have hres := hpw _ _ hm1 hm2 hlt2
        rw [List.getElem_indexOf, List.getElem_indexOf] at hres
        exact le_of_lt hres

/-- `splitData` distributes every row of `X` (with its label) to exactly one
side. -/
theorem splitData_length (fi : Nat) (th : ℚ) :
    ∀ (X : FMatrix) (y lY rY : List ℚ) (lX rX : FMatrix),
      splitData X y fi th = some (lX, lY, rX, rY) →
      lY.length + rY.length = X.length := by
  intro X
  induction X with
  | nil =>
    intro y lY rY lX rX h
    simp [splitData] at h
    obtain ⟨-, h2, -, h4⟩ := h
    simp [h2, h4]
  | cons row Xs ih =>
    intro y lY rY lX rX h
    cases y with
    | nil => simp [splitData] at h
    | cons lab ys =>
      simp only [splitData] at h
      cases hv : row[fi]? with
      | none => simp [hv] at h
      | some v =>
        simp only [hv] at h
        cases hs : splitData Xs ys fi th with
        | none => simp [hs] at h
        | some q =>
          obtain ⟨lX2, lY2, rX2, rY2⟩ := q
          simp only [hs] at h
          have hrec := ih ys lY2 rY2 lX2 rX2 hs
          by_cases hlt : v < th
          · rw [if_pos hlt] at h
            cases h
            simp only [List.length_cons]
            omega
          · rw [if_neg hlt] at h
            cases h
            simp only [List.length_cons]
            omega

/-- A constructed node is a leaf in the sense of the source exactly when both
its child pointers are nil. -/
theorem isLeafNode_node_iff (fi : Nat) (th pr : ℚ) (l r : NodePtr) :
    isLeafNode (NodePtr.node fi th pr l r) = true ↔
      (l = NodePtr.null ∧ r = NodePtr.null) := by
  cases l <;> cases r <;> simp [isLeafNode]

/-! ## Claim C6 -/

/-- C6 counterexample: on `X = [[0],[1]]` the two feature rows differ (in
column 0) and the labels differ, and the depth budget is 3, yet the builder
returns a Leaf — because the same-rows check of the source starts its column
loop at index 1 and never inspects column 0, so any one-column dataset counts
as "all rows identical". -/
theorem claimC6_counterexample :
    buildTree "classification" 1 3 [[0], [1]] [(0 : ℚ), 1] [] =
      some (NodePtr.node 0 0 0 NodePtr.null NodePtr.null, []) ∧
    specRowsIdentical [[0], [1]] = false ∧
    isSameClass [(0 : ℚ), 1] = false ∧
    (3 : Nat) ≠ 0 := by
  decide

/-- C6 (amended): for a build step on non-empty `y` that returns normally, the
result is a Leaf exactly when the depth budget is 0, or all labels are equal,
or all feature rows agree with row 0 on every column index `≥ 1` (the source
check `isSameValue` skips column 0).  The Leaf carries the prediction
`getLeafPrediction`: for classification the most frequent label, ties broken
by the earliest first occurrence in the canonical scan order; otherwise the
arithmetic mean. -/
theorem claimC6_amended (task : String) (mf : Int) (depth : Nat) (X : FMatrix)
    (y : List ℚ) (g : RNG) (r : NodePtr) (g1 : RNG) (hy : y ≠ [])
    (h : buildTree task mf depth X y g = some (r, g1)) :
    (isLeafNode r = true ↔
      (depth = 0 ∨ isSameClass y = true ∨ isSameValue X = some true)) ∧
    (isLeafNode r = true →
      r = NodePtr.node 0 0 (getLeafPrediction task y) NodePtr.null NodePtr.null) ∧
    (task = "classification" →
      getLeafPrediction task y = majorityVote y ∧
      majorityVote y ∈ y ∧
      (∀ c ∈ y, y.count c ≤ y.count (majorityVote y)) ∧
      (∀ c ∈ y, y.count c = y.count (majorityVote y) →
        y.indexOf (majorityVote y) ≤ y.indexOf c)) ∧
    (task ≠ "classification" → getLeafPrediction task y = y.sum / (y.length : ℚ)) := by
  have hclass : task = "classification" →
      getLeafPrediction task y = majorityVote y ∧
      majorityVote y ∈ y ∧
      (∀ c ∈ y, y.count c ≤ y.count (majorityVote y)) ∧
      (∀ c ∈ y, y.count c = y.count (majorityVote y) →
        y.indexOf (majorityVote y) ≤ y.indexOf c) := by
    intro ht
    exact ⟨by simp [getLeafPrediction, ht], (majorityVote_spec y hy).1,
      (majorityVote_spec y hy).2.1, (majorityVote_spec y hy).2.2⟩
  have hreg : task ≠ "classification" →
      getLeafPrediction task y = y.sum / (y.length : ℚ) := by
    intro ht
    simp [getLeafPrediction, ht, mean]
  have hmain : (isLeafNode r = true ↔
      (depth = 0 ∨ isSameClass y = true ∨ isSameValue X = some true)) ∧
      (isLeafNode r = true →
        r = NodePtr.node 0 0 (getLeafPrediction task y) NodePtr.null NodePtr.null) := by
    cases depth with
    | zero =>
      simp only [buildTree] at h
      rw [if_neg hy] at h
      cases h
      exact ⟨by simp [isLeafNode], fun _ => rfl⟩
    | succ d =>
      simp only [buildTree] at h
      rw [if_neg hy] at h
      by_cases hc : isSameClass y = true
      · rw [if_pos hc] at h
        cases h
        exact ⟨by simp [isLeafNode, hc], fun _ => rfl⟩
      · rw [if_neg hc] at h
        cases hsv : isSameValue X with
        | none => simp [hsv] at h
        | some b =>
          simp only [hsv] at h
          cases b with
          | true =>
            cases h
            exact ⟨by simp [isLeafNode], fun _ => rfl⟩
          | false =>
            cases X with
            | nil => simp at h
            | cons x0 Xs0 =>
              simp only at h
              cases hsf : selectFeatures mf x0.length g with
              | none => simp [hsf] at h
              | some p1 =>
                obtain ⟨feats, g2⟩ := p1
                simp only [hsf] at h
                cases hfb : findBestSplit task (x0 :: Xs0) y feats with
                | none => simp [hfb] at h
                | some best =>
                  simp only [hfb] at h
                  cases best with
                  | none => simp at h
                  | some p2 =>
                    obtain ⟨bfi, bth⟩ := p2
                    simp only at h
                    cases hsd : splitData (x0 :: Xs0) y bfi bth with
                    | none => simp [hsd] at h
                    | some q =>
                      obtain ⟨lX, lY, rX, rY⟩ := q
                      simp only [hsd] at h
                      cases hbl : buildTree task mf d lX lY g2 with
                      | none => simp [hbl] at h
                      | some pl =>
                        obtain ⟨leftNode, g3⟩ := pl
                        simp only [hbl] at h
                        cases hbr : buildTree task mf d rX rY g3 with
                        | none => simp [hbr] at h
                        | some pr2 =>
                          obtain ⟨rightNode, g4⟩ := pr2
                          simp only [hbr] at h
                          cases h
                          have hlen := splitData_length bfi bth (x0 :: Xs0) y
                            lY rY lX rX hsd
                          have hliff := buildTree_null_iff task mf d lX lY g2
                            leftNode _ hbl
                          have hriff := buildTree_null_iff task mf d rX rY g3
                            rightNode _ hbr
                          have hne : ¬(leftNode = NodePtr.null ∧
                              rightNode = NodePtr.null) := by
                            rintro ⟨hl2, hr2⟩
                            have e1 : lY = [] := hliff.mp hl2
                            have e2 : rY = [] := hriff.mp hr2
                            rw [e1, e2] at hlen
                            simp at hlen
                          constructor
                          · constructor
                            · intro hLeaf
                              exact absurd ((isLeafNode_node_iff bfi bth 0
                                leftNode rightNode).mp hLeaf) hne
                            · intro hRHS
                              rcases hRHS with h5 | h5 | h5
                              · exact absurd h5 (Nat.succ_ne_zero d)
                              · exact absurd h5 hc
                              · simp at h5
                          · intro hLeaf
                            exact absurd ((isLeafNode_node_iff bfi bth 0
                              leftNode rightNode).mp hLeaf) hne
  exact ⟨hmain.1, hmain.2, hclass, hreg⟩

/-- C6 witness: a depth-0 build on a concrete non-empty partition. -/
theorem claimC6_witness :
    isLeafNode (NodePtr.node 0 0 3 NodePtr.null NodePtr.null) = true ↔
      ((0 : Nat) = 0 ∨ isSameClass [(3 : ℚ), 3, 4] = true ∨
        isSameValue [[1], [2]] = some true) :=
  (claimC6_amended "classification" 1 0 [[1], [2]] [3, 3, 4] []
      (NodePtr.node 0 0 3 NodePtr.null NodePtr.null) [] (by decide) (by decide)).1

/-- Writing slot `i` and then taking `i + 1` elements appends the written
value to the untouched prefix. -/
theorem take_succ_set (l : List ℚ) (i : Nat) (v : ℚ) (h : i < l.length) :
    (l.set i v).take (i + 1) = l.take i ++ [v] := by
  rw [List.take_succ, List.set_take,
    List.set_eq_of_length_le (by simp [List.length_take]),
    List.getElem?_set_self h]
  rfl

/-- The collection loop of `PredictRandomForest`, run over non-nil trees with
a correctly sized buffer, writes exactly the per-tree traversal results after
the untouched prefix. -/
theorem predsLoop_eq (sample : List ℚ) :
    ∀ (dts : List DecisionTree) (i : Nat) (preds : List ℚ) (vs : List ℚ),
      preds.length = i + dts.length →
      dts.mapM (fun dt => PredictDecisionTree dt sample) = some vs →
      predsLoop sample (dts.map some) i preds = some (preds.take i ++ vs) := by
  intro dts
  induction dts with
  | nil =>
    intro i preds vs hlen hmapM
    simp only [List.length_nil, Nat.add_zero] at hlen
    simp only [List.mapM_nil, pure] at hmapM
    cases hmapM
    simp only [List.map_nil, predsLoop]
    rw [List.take_of_length_le (by omega)]
    simp
  | cons dt rest ih =>
    intro i preds vs hlen hmapM
    simp only [List.mapM_cons] at hmapM
    cases hv : PredictDecisionTree dt sample with
    | none => rw [hv] at hmapM; simp at hmapM
    | some v =>
      rw [hv] at hmapM
      cases hrest : rest.mapM (fun dt => PredictDecisionTree dt sample) with
      | none => rw [hrest] at hmapM; simp at hmapM
      | some vs2 =>
        rw [hrest] at hmapM
        simp at hmapM
        simp only [List.map_cons, predsLoop, hv]
        have hi : i < preds.length := by simp [hlen]
        rw [if_pos hi]
        have hlen2 : (preds.set i v).length = (i + 1) + rest.length := by
          simp [hlen]
          omega
        rw [ih (i + 1) (preds.set i v) vs2 hlen2 hrest]
        rw [take_succ_set preds i v hi]
        rw [← hmapM]
        simp

/-! ## Claim C7 -/

/-- C7: prediction on a trained forest (every tree pointer non-nil, tree count
matching the configured `NumTrees`) traverses each tree — going left at an
internal node exactly when `sample[featureIndex] < threshold`, else right —
and aggregates the per-tree leaf values: classification takes the majority
vote (a most frequent value, ties broken by the first value encountered in
the canonical scan order of the vote counts), regression the arithmetic
mean. -/
theorem claimC7 (rf : RandomForest) (sample : List ℚ) (dts : List DecisionTree)
    (vs : List ℚ)
    (htrees : rf.trees = dts.map some)
    (hnum : rf.numTrees = (dts.length : Int))
    (hmapM : dts.mapM (fun dt => PredictDecisionTree dt sample) = some vs) :
    (∀ (fi : Nat) (th pr : ℚ) (l r : NodePtr),
      (isNull l = false ∨ isNull r = false) →
      traverseTree sample (NodePtr.node fi th pr l r) =
        (match sample[fi]? with
         | none => none
         | some v => if v < th then traverseTree sample l
                     else traverseTree sample r)) ∧
    (rf.task = "classification" →
      PredictRandomForest rf sample = some (majorityVote vs) ∧
      (vs ≠ [] →
        majorityVote vs ∈ vs ∧
        (∀ c ∈ vs, vs.count c ≤ vs.count (majorityVote vs)) ∧
        (∀ c ∈ vs, vs.count c = vs.count (majorityVote vs) →
          vs.indexOf (majorityVote vs) ≤ vs.indexOf c))) ∧
    (rf.task = "regression" → vs ≠ [] →
      PredictRandomForest rf sample = some (vs.sum / (vs.length : ℚ))) := by
  have hfp : forestPredictions rf sample = some vs := by
    rw [forestPredictions, if_neg (by rw [hnum]; omega), htrees]
    have htn : rf.numTrees.toNat = dts.length := by
      rw [hnum]
      exact Int.toNat_natCast _
    rw [htn]
    have := predsLoop_eq sample dts 0 (List.replicate dts.length 0) vs
      (by simp) hmapM
    rw [this]
    simp
  refine ⟨?_, ?_, ?_⟩
  · intro fi th pr l r hnn
    cases l <;> cases r
    · rcases hnn with h5 | h5 <;> simp [isNull] at h5
    · rfl
    · rfl
    · rfl
  · intro ht
    constructor
    · simp [PredictRandomForest, hfp, ht]
    · intro hvs
      exact ⟨(majorityVote_spec vs hvs).1, (majorityVote_spec vs hvs).2.1,
        (majorityVote_spec vs hvs).2.2⟩
  · intro ht hvs
    rw [PredictRandomForest, hfp]
    rw [ht]
    simp [hvs, mean]

/-- C7 witness: a concrete two-tree classification forest; the per-tree leaf
values are `[1, 0]` and the majority vote picks `1`. -/
theorem claimC7_witness :
    PredictRandomForest
        ⟨[some ⟨NodePtr.node 0 0 1 NodePtr.null NodePtr.null, 1, 1,
            "classification"⟩,
          some ⟨NodePtr.node 0 ((1 : ℚ)/2) 0
            (NodePtr.node 0 0 0 NodePtr.null NodePtr.null)
            (NodePtr.node 0 0 1 NodePtr.null NodePtr.null), 1, 1,
            "classification"⟩],
         2, 1, 1, "classification"⟩ [0] = some (majorityVote [1, 0]) :=
  ((claimC7
      ⟨[some ⟨NodePtr.node 0 0 1 NodePtr.null NodePtr.null, 1, 1,
          "classification"⟩,
        some ⟨NodePtr.node 0 ((1 : ℚ)/2) 0
          (NodePtr.node 0 0 0 NodePtr.null NodePtr.null)
          (NodePtr.node 0 0 1 NodePtr.null NodePtr.null), 1, 1,
          "classification"⟩],
       2, 1, 1, "classification"⟩ [0]
      [⟨NodePtr.node 0 0 1 NodePtr.null NodePtr.null, 1, 1, "classification"⟩,
       ⟨NodePtr.node 0 ((1 : ℚ)/2) 0
          (NodePtr.node 0 0 0 NodePtr.null NodePtr.null)
          (NodePtr.node 0 0 1 NodePtr.null NodePtr.null), 1, 1,
          "classification"⟩]
      [1, 0] (by decide) (by decide) (by decide)).2.1 rfl).1

/-! ## The Gini algebra -/

/-- Pointwise difference under a mapped sum. -/
theorem list_sum_map_sub (f g : ℚ → ℚ) :
    ∀ l : List ℚ,
      (l.map (fun x => f x - g x)).sum = (l.map f).sum - (l.map g).sum := by
  intro l
  induction l with
  | nil => simp
  | cons a t ih =>
    simp only [List.map_cons, List.sum_cons, ih]
    ring

/-- A common denominator moves out of a mapped sum. -/
theorem list_sum_map_div (f : ℚ → ℚ) (d : ℚ) :
    ∀ l : List ℚ, (l.map (fun x => f x / d)).sum = (l.map f).sum / d := by
  intro l
  induction l with
  | nil => simp
  | cons a t ih =>
    simp only [List.map_cons, List.sum_cons, ih]
    ring

/-- A cast moves out of a mapped sum of naturals. -/
theorem list_sum_map_natCast (f : ℚ → Nat) :
    ∀ l : List ℚ, (l.map (fun x => (f x : ℚ))).sum = ((l.map f).sum : ℚ) := by
  intro l
  induction l with
  | nil => simp
  | cons a t ih => simp [ih]

/-- Splitting a sum over a duplicate-free list at one element. -/
theorem nodup_sum_filter_ne (f : ℚ → Nat) (a : ℚ) :
    ∀ ks : List ℚ, ks.Nodup →
      (ks.map f).sum = ((ks.filter (fun c => c ≠ a)).map f).sum +
        (if a ∈ ks then f a else 0) := by
  intro ks
  induction ks with
  | nil => simp
  | cons b t ih =>
    intro hnd
    obtain ⟨hb, ht⟩ := List.nodup_cons.mp hnd
    have hrec := ih ht
    by_cases hba : b = a
    · subst hba
      rw [List.filter_cons_of_neg (by simp)]
      have hft : t.filter (fun c => c ≠ b) = t := by
        apply List.filter_eq_self.mpr
        intro x hx
        simp only [ne_eq, decide_eq_true_eq]
        intro hxb
        exact hb (hxb ▸ hx)
      rw [hft]
      simp only [List.map_cons, List.sum_cons]
      rw [if_pos (List.mem_cons_self b t)]
      omega
    · rw [List.filter_cons_of_pos (by simp [hba])]
      simp only [List.map_cons, List.sum_cons]
      by_cases hat : a ∈ t
      · rw [if_pos hat] at hrec
        rw [if_pos (List.mem_cons_of_mem b hat)]
        omega
      · rw [if_neg hat] at hrec
        rw [if_neg (by
          intro hm
          rcases List.mem_cons.mp hm with hEq | hm2
          · exact hba hEq.symm
          · exact hat hm2)]
        omega

/-- The counts of the distinct labels of `y` sum to the length of `y`. -/
theorem firstOccurrences_sum_count :
    ∀ y : List ℚ, ((firstOccurrences y).map (fun c => y.count c)).sum = y.length := by
  intro y
  induction y with
  | nil => simp [firstOccurrences]
  | cons a t ih =>
    simp only [firstOccurrences, List.map_cons, List.sum_cons,
      List.count_cons_self, List.length_cons]
    have hmapeq : (((firstOccurrences t).filter (fun c => c ≠ a)).map
        (fun c => (a :: t).count c)) =
        (((firstOccurrences t).filter (fun c => c ≠ a)).map
          (fun c => t.count c)) := by
      apply List.map_congr_left
      intro x hx
      have hxa : x ≠ a := by simpa using List.of_mem_filter hx
      exact List.count_cons_of_ne hxa t
    rw [hmapeq]
    have hsplit := nodup_sum_filter_ne (fun c => t.count c) a
      (firstOccurrences t) (firstOccurrences_nodup t)
    simp only at hsplit
    by_cases hat : a ∈ t
    · rw [if_pos ((firstOccurrences_mem t a).mpr hat)] at hsplit
      omega
    · rw [if_neg (fun hm => hat ((firstOccurrences_mem t a).mp hm))] at hsplit
      have hcnt : t.count a = 0 := List.count_eq_zero.mpr hat
      omega

/-- The `Σ p·(1-p)` form of the source equals the spec form `1 - Σ p²`,
because the class proportions sum to `1` on a non-empty label list. -/
theorem giniImpurity_eq_spec (y : List ℚ) (hy : y ≠ []) :
    giniImpurity y = giniSpecImpurity y := by
  have hn : (y.length : ℚ) ≠ 0 := by
    simpa using fun h => hy (List.length_eq_zero.mp h)
  rw [giniImpurity, giniSpecImpurity]
  have h1 : ((firstOccurrences y).map (fun c =>
      ((y.count c : ℚ) / (y.length : ℚ)) *
        (1 - (y.count c : ℚ) / (y.length : ℚ)))).sum =
      ((firstOccurrences y).map (fun c =>
        ((y.count c : ℚ) / (y.length : ℚ)) -
          ((y.count c : ℚ) / (y.length : ℚ)) ^ 2)).sum := by
    apply congrArg List.sum
    apply List.map_congr_left
    intro x _
    ring
  rw [h1,
    list_sum_map_sub (fun c => (y.count c : ℚ) / (y.length : ℚ))
      (fun c => ((y.count c : ℚ) / (y.length : ℚ)) ^ 2)]
  have h2 : ((firstOccurrences y).map
      (fun c => (y.count c : ℚ) / (y.length : ℚ))).sum = 1 := by
    rw [list_sum_map_div (fun c => (y.count c : ℚ)) (y.length : ℚ),
      list_sum_map_natCast (fun c => y.count c),
      firstOccurrences_sum_count y]
    exact div_self hn
  rw [h2]

/-! ## Claim C8 -/

/-- C8: on non-empty sides, the classification split score is the negated
size-weighted Gini impurity, with the impurity in the spec form
`1 - Σ p_c²` over the class proportions (the code computes `Σ p_c·(1 - p_c)`,
equal to it because the proportions sum to 1). -/
theorem claimC8 (leftY rightY : List ℚ) (hL : leftY ≠ []) (hR : rightY ≠ []) :
    calculateScore "classification" leftY rightY =
      some (-((((leftY.length : ℚ)) /
            ((leftY.length : ℚ) + (rightY.length : ℚ))) * giniSpecImpurity leftY +
          (((rightY.length : ℚ)) /
            ((leftY.length : ℚ) + (rightY.length : ℚ))) * giniSpecImpurity rightY)) := by
  have hpos : (0 : ℚ) < (leftY.length : ℚ) + (rightY.length : ℚ) := by
    have h1 : 0 < leftY.length := List.length_pos.mpr hL
    exact_mod_cast Nat.add_pos_left h1 rightY.length
  simp only [calculateScore]
  rw [if_pos trivial, if_neg (ne_of_gt hpos)]
  rw [giniImpurity_eq_spec leftY hL, giniImpurity_eq_spec rightY hR]

/-- C8 witness: two singleton sides; both impurities are `0` and the score is
`-0`. -/
theorem claimC8_witness :
    calculateScore "classification" [(0 : ℚ)] [(1 : ℚ)] =
      some (-(((([(0 : ℚ)].length : ℚ)) /
            (([(0 : ℚ)].length : ℚ) + ([(1 : ℚ)].length : ℚ))) *
              giniSpecImpurity [0] +
          ((([(1 : ℚ)].length : ℚ)) /
            (([(0 : ℚ)].length : ℚ) + ([(1 : ℚ)].length : ℚ))) *
              giniSpecImpurity [1])) :=
  claimC8 [0] [1] (by decide) (by decide)

/-! ## Claim C10 -/

/-- C10: `giniImpurity` of the empty label list is `0` — the same value as for
any pure single-class list — and the classification score of a degenerate
split with an empty left side is the finite, non-penalized value
`-(giniImpurity rightY)`: the empty side contributes weight `0 · 0` and the
full side carries weight `1`, so nothing distinguishes the degenerate split
from a genuine one in the score. -/
theorem claimC10 :
    giniImpurity [] = 0 ∧
    (∀ (c : ℚ) (n : Nat), giniImpurity (List.replicate (n + 1) c) = 0) ∧
    (∀ rightY : List ℚ, rightY ≠ [] →
      calculateScore "classification" [] rightY =
        some (-(giniImpurity rightY))) := by
  refine ⟨by simp [giniImpurity, firstOccurrences], ?_, ?_⟩
  · intro c n
    have hfo : ∀ m : Nat, firstOccurrences (List.replicate (m + 1) c) = [c] := by
      intro m
      induction m with
      | zero => simp [firstOccurrences, List.replicate]
      | succ k ihk =>
        rw [List.replicate_succ, firstOccurrences, ihk]
        simp
    rw [giniImpurity, hfo n]
    simp only [List.map_cons, List.map_nil, List.sum_cons, List.sum_nil,
      List.count_replicate_self, List.length_replicate]
    have hne : ((n + 1 : Nat) : ℚ) ≠ 0 := by
      exact_mod_cast Nat.succ_ne_zero n
    rw [div_self hne]
    ring
  · intro rightY hR
    have hpos : (0 : ℚ) < (rightY.length : ℚ) := by
      exact_mod_cast List.length_pos.mpr hR
    simp only [calculateScore, List.length_nil, Nat.cast_zero, zero_add]
    rw [if_pos trivial, if_neg (ne_of_gt hpos)]
    rw [div_self (ne_of_gt hpos)]
    norm_num

/-- C10 witness: the degenerate split `([], [1])` scores `-(0)`. -/
theorem claimC10_witness :
    giniImpurity ([] : List ℚ) = 0 ∧
    giniImpurity (List.replicate 3 (7 : ℚ)) = 0 ∧
    calculateScore "classification" [] [(1 : ℚ)] =
      some (-(giniImpurity [(1 : ℚ)])) :=
  ⟨claimC10.1, claimC10.2.1 7 2, claimC10.2.2 [1] (by decide)⟩
